import Mathlib

/-!
Verification of the `reo` universe engine (`src/universe.rs`, `src/universe/i_data.rs`):
a shallow embedding of the graph store, the structural editor, the locator resolver
and the dataizer, together with theorems settling the specification claims.

Modelling conventions:
* `u32` identifiers are modelled as `Nat` (no claim depends on wrap-around; the only
  place the 32-bit bound is observable is `u32::from_str` in the resolver, where the
  bound is checked explicitly).
* Rust `HashMap<u32, _>` is modelled as an association list `List (Nat × _)`;
  `insert` replaces the entry in place when the key is present and appends otherwise;
  `remove` drops the entry; the list order stands in for the (unspecified) iteration
  order used by `edges.values().find(..)` and by the Debug renderer.
* Fallible and aborting control flow is modelled by `Outcome`: `Outcome.err` is a
  returned `Result::Err` (recoverable by the caller) while `Outcome.panic` is a
  Rust panic from `.unwrap()` (fatal, aborts the process).
* The atom type `Lambda = fn(&mut Universe) -> Result<u32, Error>` is self-referential,
  so the universe is parametrised by an opaque atom type `Λ`; a vertex's `lambda`
  field is `none` for the default no-op atom installed by `Vertex::empty`
  (`|_| Ok(0)`) and `some m` after `Universe::atom(v, m)`.  No operation embedded
  here ever invokes an atom (none of the Rust methods under verification call
  `lambda`), so this representation loses nothing.
-/

namespace Reo

/-- Outcome of a Rust call: normal return, recoverable `Result::Err`,
or a process-aborting panic (`unwrap` on `None`/`Err`). -/
inductive Outcome (α : Type) where
  | ok : α → Outcome α
  | err : String → Outcome α
  | panic : String → Outcome α
  deriving DecidableEq

/-- Modelled from the spec: the payload type `Data` lives in `src/data.rs`, which is
not part of the sources under verification; the spec describes it as an opaque
binary value with an empty/is-empty test, hex rendering, integer encode/decode
(`fromInt`, `asInt`) and equality.  We model it as a byte list; `from_int` encodes
an integer as its eight two's-complement big-endian bytes and `as_int` decodes. -/
abbrev Data := List Nat

/-- The empty payload (`Data::empty()`). -/
def Data.empty : Data := []

/-- `Data::is_empty()`. -/
def Data.is_empty (d : Data) : Bool := d.isEmpty

/-- Modelled from the spec: `Data::from_int`, eight big-endian bytes of the
two's-complement representation of a 64-bit integer. -/
def Data.from_int (n : Int) : Data :=
  let m : Nat := (n % ((2 : Int) ^ 64)).toNat
  [m / 2 ^ 56 % 256, m / 2 ^ 48 % 256, m / 2 ^ 40 % 256, m / 2 ^ 32 % 256,
   m / 2 ^ 24 % 256, m / 2 ^ 16 % 256, m / 2 ^ 8 % 256, m % 256]

/-- Modelled from the spec: `Data::as_int`, decoding eight big-endian bytes as a
two's-complement 64-bit integer. -/
def Data.as_int (d : Data) : Int :=
  let m : Nat := d.foldl (fun acc b => acc * 256 + b) 0
  if m < 2 ^ 63 then (m : Int) else (m : Int) - 2 ^ 64

/-- An edge of the universe (`struct Edge`): source, target, label `a`,
provenance locator `k` (empty unless created by `reff`). -/
structure Edge where
  «from» : Nat
  «to» : Nat
  a : String
  k : String
  deriving DecidableEq

/-- A vertex (`struct Vertex`): payload and atom.  `lambda = none` models the
default no-op atom installed by `Vertex::empty`. -/
structure Vertex (Λ : Type) where
  data : Data
  lambda : Option Λ
  deriving DecidableEq

/-- `Vertex::empty()`: empty payload, default no-op atom. -/
def Vertex.empty {Λ : Type} : Vertex Λ := ⟨Data.empty, none⟩

/-- The universe (`struct Universe`): vertex store and edge store, each a map
from identifiers. -/
structure Universe (Λ : Type) where
  vertices : List (Nat × Vertex Λ)
  edges : List (Nat × Edge)
  deriving DecidableEq

/-- `HashMap::get`: first entry with the given key. -/
def lookupA {α : Type} (i : Nat) : List (Nat × α) → Option α
  | [] => none
  | p :: t => if p.1 = i then some p.2 else lookupA i t

/-- `HashMap::insert`: replace the entry in place when the key is present,
append otherwise. -/
def insertA {α : Type} (i : Nat) (v : α) : List (Nat × α) → List (Nat × α)
  | [] => [(i, v)]
  | p :: t => if p.1 = i then (i, v) :: t else p :: insertA i v t

/-- `HashMap::remove`: drop the entry with the given key. -/
def removeA {α : Type} (i : Nat) : List (Nat × α) → List (Nat × α)
  | [] => []
  | p :: t => if p.1 = i then removeA i t else p :: removeA i t

/-- The key set of a store. -/
def keysA {α : Type} (l : List (Nat × α)) : List Nat :=
  l.map Prod.fst

/-- `keys().max()`: greatest key of a store, `none` when empty. -/
def natMaxList : List Nat → Option Nat
  | [] => none
  | h :: t => some (t.foldl max h)

/-- One `if let Some(m) = ... { i = i.max(m) }` step of `next_id`. -/
def optMax (o : Option Nat) (i : Nat) : Nat :=
  match o with
  | some m => max i m
  | none => i

variable {Λ Λ' : Type}

/-- `Universe::empty()`. -/
def Universe.empty : Universe Λ := ⟨[], []⟩

/-- `Universe::next_id`: start from 0, take the maximum over vertex keys and
edge keys, and return one more.  The Rust receiver is `&mut self` but the body
performs no mutation, so the embedding is a pure function of the universe. -/
def Universe.next_id (u : Universe Λ) : Nat :=
  let i0 : Nat := 0
  let i1 : Nat := optMax (natMaxList (keysA u.vertices)) i0
  let i2 : Nat := optMax (natMaxList (keysA u.edges)) i1
  i2 + 1

/-- `Universe::add`: unconditionally insert a fresh empty vertex under `v`
(the source performs no duplicate check and cannot fail). -/
def Universe.add (u : Universe Λ) (v : Nat) : Universe Λ :=
  { u with vertices := insertA v Vertex.empty u.vertices }

/-- `Universe::bind`: insert the forward edge `e : v1 → v2` labelled `a`; when
`a ≠ "ρ"`, allocate `next_id()` of the updated store and insert the backward
edge `v2 → v1` labelled `"ρ"`.  The source performs no vertex-existence check
and cannot fail. -/
def Universe.bind (u : Universe Λ) (e v1 v2 : Nat) (a : String) : Universe Λ :=
  let u1 : Universe Λ := { u with edges := insertA e ⟨v1, v2, a, ""⟩ u.edges }
  if a = "ρ" then u1
  else
    let e1 := u1.next_id
    { u1 with edges := insertA e1 ⟨v2, v1, "ρ", ""⟩ u1.edges }

/-- `loc.split(".")` on the character list: split at every dot, keeping empty
segments (so the empty locator yields one empty segment, as in Rust). -/
def splitDots : List Char → List (List Char)
  | [] => [[]]
  | c :: t =>
    let r := splitDots t
    if c = '.' then [] :: r
    else
      match r with
      | [] => [[c]]
      | h :: t2 => (c :: h) :: t2

/-- One base-10 digit step of `u32::from_str`. -/
def digitVal (c : Char) : Option Nat :=
  if '0' ≤ c ∧ c ≤ '9' then some (c.toNat - ('0').toNat) else none

/-- Accumulate decimal digits; fails on the first non-digit. -/
def parseNatAux : List Char → Nat → Option Nat
  | [], acc => some acc
  | c :: t, acc =>
    match digitVal c with
    | some d => parseNatAux t (acc * 10 + d)
    | none => none

/-- `u32::from_str`: optional leading plus sign, at least one digit, value
within the 32-bit range. -/
def parseU32 (cs : List Char) : Option Nat :=
  let body : List Char :=
    match cs with
    | c :: t => if c = '+' then t else cs
    | [] => []
  match body with
  | [] => none
  | _ =>
    match parseNatAux body 0 with
    | some n => if n < 4294967296 then some n else none
    | none => none

/-- One segment step of `Universe::find`'s `for_each` closure.  A segment
starting with `ν` jumps to the parsed absolute vertex (panicking on a bad
number, as `from_str(..).unwrap()` does); `𝜉` is a no-op; `Φ` jumps to vertex 0;
any other segment follows the first outgoing edge with that label, panicking
(`ok_or(..).unwrap()`) when none exists.  A panic raised by an earlier segment
is preserved. -/
def findStep (edges : List (Nat × Edge)) (acc : Outcome Nat) (seg : List Char) : Outcome Nat :=
  match acc with
  | Outcome.ok vtx =>
    if seg.head? = some 'ν' then
      match parseU32 seg.tail with
      | some n => Outcome.ok n
      | none => Outcome.panic ("invalid u32 literal in locator segment")
    else if seg = ['𝜉'] then Outcome.ok vtx
    else if seg = ['Φ'] then Outcome.ok 0
    else
      match edges.find? (fun p => decide (p.2.«from» = vtx ∧ p.2.a = String.mk seg)) with
      | some p => Outcome.ok p.2.«to»
      | none =>
        Outcome.panic ("Can\x27t find ." ++ String.mk seg ++ " from ν" ++ toString vtx)
  | other => other

/-- `Universe::find`: fold the resolver step over the dot-separated segments,
starting from `v`.  The source's `Result` is always `Ok` (every failure inside
the closure is an `unwrap` panic), so the outcome is `ok` or `panic`, never
`err`. -/
def Universe.find (u : Universe Λ) (v : Nat) (loc : String) : Outcome Nat :=
  (splitDots loc.data).foldl (findStep u.edges) (Outcome.ok v)

/-- `Universe::reff`: resolve `k` from `v1` eagerly (`find(..).unwrap()`: a
resolver panic aborts) and insert the edge with label `a` and provenance `k`. -/
def Universe.reff (u : Universe Λ) (e1 v1 : Nat) (k a : String) : Outcome (Universe Λ) :=
  match u.find v1 k with
  | Outcome.ok v2 => Outcome.ok { u with edges := insertA e1 ⟨v1, v2, a, k⟩ u.edges }
  | Outcome.err m => Outcome.panic m
  | Outcome.panic m => Outcome.panic m

/-- `Universe::copy`: read edge `e1` (`get(..).unwrap()` panics when absent),
remove it, insert `e2` from the old source to `v3` with the same label and
provenance, then allocate `next_id()` and insert the `π` edge from `v3` to the
old target. -/
def Universe.copy (u : Universe Λ) (e1 v3 e2 : Nat) : Outcome (Universe Λ) :=
  match lookupA e1 u.edges with
  | none => Outcome.panic ("copy: unknown edge")
  | some ed =>
    let u1 : Universe Λ := { u with edges := insertA e2 ⟨ed.«from», v3, ed.a, ed.k⟩ (removeA e1 u.edges) }
    let e3 := u1.next_id
    Outcome.ok { u1 with edges := insertA e3 ⟨v3, ed.«to», "π", ""⟩ u1.edges }

/-- `Universe::atom`: set the vertex's atom (`get_mut(..).unwrap()` panics when
the vertex is absent). -/
def Universe.atom (u : Universe Λ) (v : Nat) (m : Λ) : Outcome (Universe Λ) :=
  match lookupA v u.vertices with
  | none => Outcome.panic ("atom: unknown vertex")
  | some vx => Outcome.ok { u with vertices := insertA v ⟨vx.data, some m⟩ u.vertices }

/-- `Universe::data` (setter): replace the vertex's payload.  In
`src/universe.rs` a missing vertex is an `unwrap` panic; in the
`src/universe/i_data.rs` variant it is a returned error — the two agree
whenever the vertex exists, which is the only case any claim exercises;
we model the missing-vertex case as the recoverable error of `i_data.rs`,
whose message names the vertex. -/
def Universe.data (u : Universe Λ) (v : Nat) (d : Data) : Outcome (Universe Λ) :=
  match lookupA v u.vertices with
  | none => Outcome.err ("Can\x27t find ν" ++ toString v)
  | some vx => Outcome.ok { u with vertices := insertA v ⟨d, vx.lambda⟩ u.vertices }

/-- `Universe::vertex`: read one vertex. -/
def Universe.vertex (u : Universe Λ) (v : Nat) : Option (Vertex Λ) :=
  lookupA v u.vertices

/-- `Universe::dataize`: resolve the locator (propagating failures with `?`),
look the vertex up (`ok_or` gives the recoverable absent-vertex error), and
return its stored `data` field.  The source never inspects the payload for
emptiness, never invokes the atom and never mutates the universe. -/
def Universe.dataize (u : Universe Λ) (v : Nat) (loc : String) : Outcome Data :=
  match u.find v loc with
  | Outcome.ok id =>
    match lookupA id u.vertices with
    | some vx => Outcome.ok vx.data
    | none => Outcome.err ("ν" ++ toString id ++ " is absent")
  | Outcome.err m => Outcome.err m
  | Outcome.panic m => Outcome.panic m

/-- `Universe::dataize` with its `&mut self` receiver threaded explicitly: the
body contains no assignment, so the returned universe is the receiver itself. -/
def Universe.dataizeM (u : Universe Λ) (v : Nat) (loc : String) : Outcome Data × Universe Λ :=
  (u.dataize v loc, u)

/-- Forget every bound atom (used to state that dataization is independent of
the atoms). -/
def eraseAtoms (u : Universe Λ) : Universe Unit :=
  { vertices := u.vertices.map (fun p => (p.1, ⟨p.2.data, none⟩)), edges := u.edges }

/-! ### Store lemmas -/

theorem lookupA_insertA_self {α : Type} (i : Nat) (v : α) (l : List (Nat × α)) :
    lookupA i (insertA i v l) = some v := by
  induction l with
  | nil => simp [insertA, lookupA]
  | cons p t ih =>
    by_cases h : p.1 = i
    · simp [insertA, h, lookupA]
    · simp [insertA, h, lookupA, ih]

theorem lookupA_insertA_ne {α : Type} {j i : Nat} (hji : j ≠ i) (v : α)
    (l : List (Nat × α)) : lookupA j (insertA i v l) = lookupA j l := by
  have hij : ¬(i = j) := fun h => hji h.symm
  induction l with
  | nil => simp [insertA, lookupA, hij]
  | cons p t ih =>
    by_cases h : p.1 = i
    · subst h
      simp [insertA, lookupA, hij]
    · simp [insertA, h, lookupA, ih]

theorem lookupA_eq_none_iff {α : Type} (i : Nat) (l : List (Nat × α)) :
    lookupA i l = none ↔ i ∉ keysA l := by
  induction l with
  | nil => simp [lookupA, keysA]
  | cons p t ih =>
    simp only [keysA, List.map_cons, List.mem_cons] at ih ⊢
    by_cases h : p.1 = i
    · subst h
      simp [lookupA]
    · have hip : ¬(i = p.1) := fun he => h he.symm
      simp [lookupA, h, hip, ih]

theorem mem_keysA_of_lookupA {α : Type} {i : Nat} {l : List (Nat × α)} {v : α}
    (h : lookupA i l = some v) : i ∈ keysA l := by
  by_contra hmem
  rw [← lookupA_eq_none_iff, h] at hmem
  exact Option.noConfusion hmem

theorem keysA_insertA_of_not_mem {α : Type} (i : Nat) (v : α) (l : List (Nat × α)) :
    i ∉ keysA l → keysA (insertA i v l) = keysA l ++ [i] := by
  induction l with
  | nil => intro _; simp [insertA, keysA]
  | cons p t ih =>
    intro h
    simp only [keysA, List.map_cons, List.mem_cons, not_or] at h
    have h1 : ¬(p.1 = i) := fun he => h.1 he.symm
    simp only [insertA, h1, if_false]
    calc keysA (p :: insertA i v t) = p.1 :: keysA (insertA i v t) := rfl
      _ = p.1 :: (keysA t ++ [i]) := by rw [ih h.2]
      _ = keysA (p :: t) ++ [i] := rfl

theorem length_insertA_of_not_mem {α : Type} (i : Nat) (v : α) (l : List (Nat × α)) :
    i ∉ keysA l → (insertA i v l).length = l.length + 1 := by
  induction l with
  | nil => intro _; simp [insertA]
  | cons p t ih =>
    intro h
    simp only [keysA, List.map_cons, List.mem_cons, not_or] at h
    have h1 : ¬(p.1 = i) := fun he => h.1 he.symm
    simp [insertA, h1, ih h.2]

theorem mem_keysA_insertA {α : Type} {j : Nat} (i : Nat) (v : α) (l : List (Nat × α)) :
    j ∈ keysA l → j ∈ keysA (insertA i v l) := by
  induction l with
  | nil => intro h; simp [keysA] at h
  | cons p t ih =>
    intro h
    simp only [keysA, List.map_cons, List.mem_cons] at h
    by_cases hp : p.1 = i
    · subst hp
      have hins : insertA p.1 v (p :: t) = (p.1, v) :: t := by simp [insertA]
      rw [hins]
      simpa [keysA] using h
    · rcases h with h | h
      · simp [insertA, hp, keysA, h]
      · simp only [insertA, hp, if_false, keysA, List.map_cons, List.mem_cons]
        exact Or.inr (ih h)

theorem lookupA_removeA_self {α : Type} (i : Nat) (l : List (Nat × α)) :
    lookupA i (removeA i l) = none := by
  induction l with
  | nil => rfl
  | cons p t ih =>
    by_cases h : p.1 = i <;> simp [removeA, h, lookupA, ih]

theorem lookupA_removeA_ne {α : Type} {j i : Nat} (hji : j ≠ i) (l : List (Nat × α)) :
    lookupA j (removeA i l) = lookupA j l := by
  induction l with
  | nil => rfl
  | cons p t ih =>
    by_cases h : p.1 = i
    · subst h
      have hpj : ¬(p.1 = j) := fun he => hji he.symm
      simp [removeA, lookupA, hpj, ih]
    · simp [removeA, h, lookupA, ih]

theorem mem_keysA_removeA {α : Type} {j i : Nat} (hji : j ≠ i) (l : List (Nat × α)) :
    j ∈ keysA l → j ∈ keysA (removeA i l) := by
  induction l with
  | nil => intro h; simp [keysA] at h
  | cons p t ih =>
    intro h
    simp only [keysA, List.map_cons, List.mem_cons] at h
    by_cases hp : p.1 = i
    · rcases h with h | h
      · exact absurd (h.trans hp) hji
      · simp only [removeA, hp, if_pos rfl]
        exact ih h
    · rcases h with h | h
      · simp [removeA, hp, keysA, h]
      · simp only [removeA, hp, if_false, keysA, List.map_cons, List.mem_cons]
        exact Or.inr (ih h)

theorem lookupA_map {α β : Type} (f : α → β) (i : Nat) (l : List (Nat × α)) :
    lookupA i (l.map (fun p => (p.1, f p.2))) = (lookupA i l).map f := by
  induction l with
  | nil => simp [lookupA]
  | cons p t ih =>
    by_cases h : p.1 = i <;> simp [lookupA, h, ih]

/-! ### Maximum and fresh-identifier lemmas -/

theorem le_foldl_max (l : List Nat) (a : Nat) : a ≤ l.foldl max a := by
  induction l generalizing a with
  | nil => exact Nat.le_refl a
  | cons c t ih => exact Nat.le_trans (Nat.le_max_left a c) (ih (max a c))

theorem mem_le_foldl_max {i : Nat} {l : List Nat} (h : i ∈ l) (a : Nat) :
    i ≤ l.foldl max a := by
  induction l generalizing a with
  | nil => simp at h
  | cons c t ih =>
    rcases List.mem_cons.mp h with h | h
    · subst h
      exact Nat.le_trans (Nat.le_max_right a i) (le_foldl_max t (max a i))
    · exact ih h (max a c)

theorem foldl_max_pull (t : List Nat) (a b : Nat) :
    t.foldl max (max a b) = max a (t.foldl max b) := by
  induction t generalizing a b with
  | nil => rfl
  | cons c t ih =>
    show t.foldl max (max (max a b) c) = max a (t.foldl max (max b c))
    rw [Nat.max_assoc]
    exact ih a (max b c)

theorem optMax_natMaxList (l : List Nat) (a : Nat) :
    optMax (natMaxList l) a = l.foldl max a := by
  cases l with
  | nil => rfl
  | cons h t =>
    show max a (t.foldl max h) = (h :: t).foldl max a
    rw [show (h :: t).foldl max a = t.foldl max (max a h) from rfl, foldl_max_pull]

theorem next_id_eq (u : Universe Λ) :
    u.next_id = (keysA u.vertices ++ keysA u.edges).foldl max 0 + 1 := by
  show optMax (natMaxList (keysA u.edges)) (optMax (natMaxList (keysA u.vertices)) 0) + 1
      = (keysA u.vertices ++ keysA u.edges).foldl max 0 + 1
  rw [optMax_natMaxList, optMax_natMaxList, List.foldl_append]

theorem lt_next_id {i : Nat} {u : Universe Λ}
    (h : i ∈ keysA u.vertices ++ keysA u.edges) : i < u.next_id := by
  rw [next_id_eq]
  exact Nat.lt_succ_of_le (mem_le_foldl_max h 0)

theorem edge_lt_next_id {i : Nat} {u : Universe Λ} (h : i ∈ keysA u.edges) :
    i < u.next_id :=
  lt_next_id (List.mem_append.mpr (Or.inr h))

/-! ### Claim C1 -/

/-- A universe with a single vertex 0 whose payload is absent and which has a
non-default atom bound. -/
def uniC1 : Universe Unit := ⟨[(0, ⟨Data.empty, some ()⟩)], []⟩

/-- Claim C1, evidence of the divergence: on a vertex with an absent payload and
a non-default atom bound, `dataize` neither invokes the atom nor fails with a
data-absent error — it succeeds, returning the empty stored payload, and leaves
the universe untouched.  (The claim says the atom is invoked and `DataAbsent`
raised when the payload is still absent.) -/
theorem claim_C1 :
    (lookupA 0 uniC1.vertices).map Vertex.lambda = some (some ()) ∧
    (lookupA 0 uniC1.vertices).map (fun vx => vx.data.is_empty) = some true ∧
    uniC1.dataizeM 0 "Φ" = (Outcome.ok Data.empty, uniC1) := by
  decide

/-! ### Claim C2 -/

/-- Scenario A, first step: empty universe, then `add(0)`. -/
def uniA : Universe Unit := Universe.empty.add 0

/-- Scenario A: `add(0)`, `setData(0, encodeInt(42))`, `dataize(0, "Φ")`. -/
def scenarioA : Outcome Data :=
  match uniA.data 0 (Data.from_int 42) with
  | Outcome.ok u => u.dataize 0 "Φ"
  | Outcome.err m => Outcome.err m
  | Outcome.panic m => Outcome.panic m

/-- Claim C2: whenever the locator resolves to a vertex whose payload is
materialized, `dataize` returns that stored payload; and Scenario A (empty
universe, `add(0)`, set vertex 0's data to the encoding of 42, `dataize(0, "Φ")`)
returns the integer 42. -/
theorem claim_C2 :
    (∀ (Λ : Type) (u : Universe Λ) (v : Nat) (loc : String) (t : Nat) (vtx : Vertex Λ),
      u.find v loc = Outcome.ok t → lookupA t u.vertices = some vtx →
      vtx.data.is_empty = false → u.dataize v loc = Outcome.ok vtx.data) ∧
    scenarioA = Outcome.ok (Data.from_int 42) ∧
    Data.as_int (Data.from_int 42) = 42 := by
  refine ⟨?_, by decide, by decide⟩
  intro Λ u v loc t vtx hf hl _
  simp [Universe.dataize, hf, hl]

/-- Concrete input for the C2 witness: vertex 0 stores the payload byte `[7]`. -/
def uniC2w : Universe Unit := ⟨[(0, ⟨[7], none⟩)], []⟩

/-- Witness for C2 at a concrete input. -/
theorem claim_C2_witness : uniC2w.dataize 0 "Φ" = Outcome.ok [7] :=
  claim_C2.1 Unit uniC2w 0 "Φ" 0 ⟨[7], none⟩ (by decide) (by decide) (by decide)

/-! ### Claim C3 -/

/-- A universe with vertex 0 and no edges. -/
def uniC3 : Universe Unit := ⟨[(0, Vertex.empty)], []⟩

/-- Claim C3, evidence of the divergence: resolving the attribute segment
`nope` from vertex 0, which has no such outgoing edge, does not return a
recoverable error — the resolver builds the not-found message and immediately
unwraps it, so `find` (and hence `dataize(0, "nope")`) aborts with a panic
carrying that message; `find`'s `Result` is never `Err`.  (The claim says a
recoverable `LocatorNotFound` error is returned and propagated.) -/
theorem claim_C3 :
    uniC3.find 0 "nope" = Outcome.panic "Can\x27t find .nope from ν0" ∧
    uniC3.dataize 0 "nope" = Outcome.panic "Can\x27t find .nope from ν0" := by
  decide

/-! ### Claim C4 -/

/-- A universe whose vertex 0 already stores the payload encoding 7. -/
def uniC4 : Universe Unit := ⟨[(0, ⟨Data.from_int 7, none⟩)], []⟩

/-- Counterexample to Claim C4 as stated: `add(0)` on a universe that already
has vertex 0 does not fail with `DuplicateId` and does not leave the existing
vertex unchanged — it silently replaces it with a fresh empty vertex,
destroying the stored payload. -/
theorem claim_C4_cex :
    lookupA 0 (uniC4.add 0).vertices = some Vertex.empty ∧
    lookupA 0 uniC4.vertices = some ⟨Data.from_int 7, none⟩ ∧
    (⟨Data.from_int 7, none⟩ : Vertex Unit) ≠ Vertex.empty := by
  decide

/-- Claim C4 as amended: `add(id)` always succeeds and installs a fresh vertex
with empty payload and the default atom under `id` — inserting it when `id` is
new and silently overwriting the existing vertex when `id` is already in use —
while every other vertex and the edge store are unchanged. -/
theorem claim_C4 : ∀ (Λ : Type) (u : Universe Λ) (id : Nat),
    lookupA id (u.add id).vertices = some Vertex.empty ∧
    (∀ j, j ≠ id → lookupA j (u.add id).vertices = lookupA j u.vertices) ∧
    (u.add id).edges = u.edges := by
  intro Λ u id
  refine ⟨lookupA_insertA_self id Vertex.empty u.vertices, ?_, rfl⟩
  intro j hj
  exact lookupA_insertA_ne hj Vertex.empty u.vertices

/-- Witness for the amended C4 at a concrete input. -/
theorem claim_C4_witness :
    lookupA 0 (uniC4.add 0).vertices = some Vertex.empty ∧
    lookupA 5 (uniC4.add 0).vertices = lookupA 5 uniC4.vertices :=
  ⟨(claim_C4 Unit uniC4 0).1, (claim_C4 Unit uniC4 0).2.1 5 (by decide)⟩

/-! ### Claim C5 -/

/-- Counterexample to Claim C5 as stated: binding between the vertex ids 5 and
6 on the empty universe — neither is a vertex — does not fail with
`UnknownVertex`; the forward edge is inserted regardless. -/
theorem claim_C5_cex :
    lookupA 5 (Universe.empty : Universe Unit).vertices = none ∧
    lookupA 6 (Universe.empty : Universe Unit).vertices = none ∧
    lookupA 1 ((Universe.empty : Universe Unit).bind 1 5 6 "a").edges
      = some ⟨5, 6, "a", ""⟩ := by
  decide

/-- Claim C5 as amended: `bind` performs no vertex-existence check and never
fails; the forward edge is inserted (and the vertex store left unchanged) even
when `from` or `to` are not vertices, so dangling edges are possible. -/
theorem claim_C5 : ∀ (Λ : Type) (u : Universe Λ) (e v1 v2 : Nat) (a : String),
    lookupA e (u.bind e v1 v2 a).edges = some ⟨v1, v2, a, ""⟩ ∧
    (u.bind e v1 v2 a).vertices = u.vertices := by
  intro Λ u e v1 v2 a
  by_cases h : a = "ρ"
  · constructor
    · simp only [Universe.bind]
      rw [if_pos h]
      exact lookupA_insertA_self e ⟨v1, v2, a, ""⟩ u.edges
    · simp only [Universe.bind]
      rw [if_pos h]
  · have hmem : e ∈ keysA (insertA e (⟨v1, v2, a, ""⟩ : Edge) u.edges) :=
      mem_keysA_of_lookupA (lookupA_insertA_self e ⟨v1, v2, a, ""⟩ u.edges)
    have hlt : e < ({ u with edges := insertA e (⟨v1, v2, a, ""⟩ : Edge) u.edges }
        : Universe Λ).next_id := edge_lt_next_id hmem
    constructor
    · simp only [Universe.bind]
      rw [if_neg h]
      rw [lookupA_insertA_ne (Nat.ne_of_lt hlt) _ _]
      exact lookupA_insertA_self e ⟨v1, v2, a, ""⟩ u.edges
    · simp only [Universe.bind]
      rw [if_neg h]

/-! ### Claim C6 -/

theorem bind_edges_rho (u : Universe Λ) (e v1 v2 : Nat) {a : String} (h : a = "ρ") :
    (u.bind e v1 v2 a).edges = insertA e ⟨v1, v2, a, ""⟩ u.edges := by
  simp only [Universe.bind]
  rw [if_pos h]

theorem bind_edges_nonrho (u : Universe Λ) (e v1 v2 : Nat) {a : String} (h : ¬a = "ρ") :
    (u.bind e v1 v2 a).edges =
      insertA (({ u with edges := insertA e ⟨v1, v2, a, ""⟩ u.edges } : Universe Λ).next_id)
        ⟨v2, v1, "ρ", ""⟩ (insertA e ⟨v1, v2, a, ""⟩ u.edges) := by
  simp only [Universe.bind]
  rw [if_neg h]

/-- Claim C6: on a universe containing vertices `v1` and `v2`, binding a fresh
edge id `e` with a label other than `"ρ"` grows the edge store by exactly two
entries — the forward edge `e : v1 → v2` with the given label, plus a backward
edge under a freshly allocated id from `v2` to `v1` labelled `"ρ"` — while a
`"ρ"`-labelled bind grows it by exactly one (no inverse), every other edge
being untouched. -/
theorem claim_C6 : ∀ (Λ : Type) (u : Universe Λ) (e v1 v2 : Nat) (a : String),
    lookupA v1 u.vertices ≠ none → lookupA v2 u.vertices ≠ none →
    lookupA e u.edges = none →
    (a ≠ "ρ" →
      (u.bind e v1 v2 a).edges.length = u.edges.length + 2 ∧
      lookupA e (u.bind e v1 v2 a).edges = some ⟨v1, v2, a, ""⟩ ∧
      ∃ b, b ≠ e ∧ lookupA b u.edges = none ∧
        lookupA b (u.bind e v1 v2 a).edges = some ⟨v2, v1, "ρ", ""⟩ ∧
        ∀ j, j ≠ e → j ≠ b → lookupA j (u.bind e v1 v2 a).edges = lookupA j u.edges) ∧
    (a = "ρ" →
      (u.bind e v1 v2 a).edges.length = u.edges.length + 1 ∧
      lookupA e (u.bind e v1 v2 a).edges = some ⟨v1, v2, a, ""⟩ ∧
      ∀ j, j ≠ e → lookupA j (u.bind e v1 v2 a).edges = lookupA j u.edges) := by
  intro Λ u e v1 v2 a hv1 hv2 he
  have heK : e ∉ keysA u.edges := (lookupA_eq_none_iff e u.edges).mp he
  constructor
  · intro hne
    have hE := bind_edges_nonrho u e v1 v2 hne
    set E1 := insertA e (⟨v1, v2, a, ""⟩ : Edge) u.edges with hE1
    set b := ({ u with edges := E1 } : Universe Λ).next_id with hb
    have hlen1 : E1.length = u.edges.length + 1 := by
      rw [hE1]
      exact length_insertA_of_not_mem e _ _ heK
    have hkeys : keysA E1 = keysA u.edges ++ [e] := by
      rw [hE1]
      exact keysA_insertA_of_not_mem e _ _ heK
    have hblt : ∀ i ∈ keysA E1, i < b := fun i hi => edge_lt_next_id hi
    have hbK : b ∉ keysA E1 := fun hmem => absurd (hblt b hmem) (lt_irrefl b)
    have heE1 : e ∈ keysA E1 := by
      rw [hkeys]
      exact List.mem_append.mpr (Or.inr (by simp))
    have hbe : b ≠ e := by
      have := hblt e heE1
      omega
    have hbKu : b ∉ keysA u.edges := fun hmem =>
      absurd (hblt b (by rw [hkeys]; exact List.mem_append.mpr (Or.inl hmem))) (lt_irrefl b)
    refine ⟨?_, ?_, b, hbe, (lookupA_eq_none_iff b u.edges).mpr hbKu, ?_, ?_⟩
    · rw [hE, length_insertA_of_not_mem b _ _ hbK, hlen1]
    · rw [hE, lookupA_insertA_ne (Ne.symm hbe) _ _, hE1]
      exact lookupA_insertA_self e _ u.edges
    · rw [hE]
      exact lookupA_insertA_self b _ E1
    · intro j hje hjb
      rw [hE, lookupA_insertA_ne hjb _ _, hE1]
      exact lookupA_insertA_ne hje _ _
  · intro hrho
    have hE := bind_edges_rho u e v1 v2 hrho
    refine ⟨?_, ?_, ?_⟩
    · rw [hE]
      exact length_insertA_of_not_mem e _ _ heK
    · rw [hE]
      exact lookupA_insertA_self e _ u.edges
    · intro j hje
      rw [hE]
      exact lookupA_insertA_ne hje _ _

/-- Concrete input for the C6 witness: two vertices, no edges. -/
def uniC6w : Universe Unit := ⟨[(0, Vertex.empty), (1, Vertex.empty)], []⟩

/-- Witness for C6 at concrete inputs, one per label case. -/
theorem claim_C6_witness :
    (uniC6w.bind 5 0 1 "int").edges.length = uniC6w.edges.length + 2 ∧
    (uniC6w.bind 7 0 1 "ρ").edges.length = uniC6w.edges.length + 1 :=
  ⟨((claim_C6 Unit uniC6w 5 0 1 "int" (by decide) (by decide) (by decide)).1
      (by decide)).1,
   ((claim_C6 Unit uniC6w 7 0 1 "ρ" (by decide) (by decide) (by decide)).2 rfl).1⟩

/-! ### Claim C7 -/

theorem copy_eq (u : Universe Λ) {e1 : Nat} (v3 e2 : Nat) {v1 v2 : Nat} {a k : String}
    (h : lookupA e1 u.edges = some ⟨v1, v2, a, k⟩) :
    u.copy e1 v3 e2 = Outcome.ok
      { u with edges := insertA (({ u with edges := insertA e2 ⟨v1, v3, a, k⟩ (removeA e1 u.edges) } : Universe Λ).next_id) ⟨v3, v2, "π", ""⟩ (insertA e2 ⟨v1, v3, a, k⟩ (removeA e1 u.edges)) } := by
  simp only [Universe.copy, h]

/-- The edge store of a successful structural-editor call (used to state
counterexamples about the result of `copy`). -/
def edgesOf : Outcome (Universe Λ) → Option (List (Nat × Edge))
  | Outcome.ok u => some u.edges
  | Outcome.err _ => none
  | Outcome.panic _ => none

/-- A universe with vertices 1 and 2 and the single edge `5 : 1 → 2` labelled
`a`. -/
def uniC7 : Universe Unit :=
  ⟨[(1, Vertex.empty), (2, Vertex.empty)], [(5, ⟨1, 2, "a", ""⟩)]⟩

/-- Counterexample to Claim C7 as stated: it quantifies over every `e2`, but
with `e2 = e1 = 5` the call `copy(5, 3, 5)` succeeds and edge id 5 still
exists afterwards (now carrying the copied binding `1 → 3`), contradicting
"edge e1 no longer exists". -/
theorem claim_C7_cex :
    (edgesOf (uniC7.copy 5 3 5)).map (lookupA 5)
      = some (some ⟨1, 3, "a", ""⟩) := by
  decide

/-- Claim C7 as amended: for a *fresh* replacement edge id `e2` (not an
existing edge id, and larger than `e1`, as the `next_id` discipline produces),
after `copy(e1, v3, e2)` where `e1` was `v1 → v2` with label `a`: edge `e1` no
longer exists; edge `e2` is `v1 → v3` with the same label and provenance;
exactly one new edge, under a freshly allocated id, runs from `v3` to `v2`
labelled `"π"`; and no other edge or vertex changes. -/
theorem claim_C7 : ∀ (Λ : Type) (u : Universe Λ) (e1 v1 v2 v3 e2 : Nat) (a k : String),
    lookupA e1 u.edges = some ⟨v1, v2, a, k⟩ →
    lookupA e2 u.edges = none → e1 < e2 →
    ∃ (u2 : Universe Λ) (e3 : Nat),
      u.copy e1 v3 e2 = Outcome.ok u2 ∧
      lookupA e1 u2.edges = none ∧
      lookupA e2 u2.edges = some ⟨v1, v3, a, k⟩ ∧
      lookupA e3 u2.edges = some ⟨v3, v2, "π", ""⟩ ∧
      lookupA e3 u.edges = none ∧ e3 ≠ e1 ∧ e3 ≠ e2 ∧
      (∀ j, j ≠ e1 → j ≠ e2 → j ≠ e3 → lookupA j u2.edges = lookupA j u.edges) ∧
      u2.vertices = u.vertices := by
  intro Λ u e1 v1 v2 v3 e2 a k h1 h2 h12
  set E1 := removeA e1 u.edges with hE1
  set E2 := insertA e2 (⟨v1, v3, a, k⟩ : Edge) E1 with hE2
  set e3 := ({ u with edges := E2 } : Universe Λ).next_id with he3
  have hcopy := copy_eq u v3 e2 h1
  have hlt : ∀ i ∈ keysA E2, i < e3 := fun i hi => edge_lt_next_id hi
  have he2E2 : e2 ∈ keysA E2 :=
    mem_keysA_of_lookupA (by rw [hE2]; exact lookupA_insertA_self e2 _ E1)
  have he3gt2 : e2 < e3 := hlt e2 he2E2
  have he3ne2 : e3 ≠ e2 := by omega
  have he3ne1 : e3 ≠ e1 := by omega
  have he3K : e3 ∉ keysA E2 := fun hmem => absurd (hlt e3 hmem) (lt_irrefl e3)
  have he3Ku : e3 ∉ keysA u.edges := by
    intro hmem
    have : e3 ∈ keysA E1 := by
      rw [hE1]
      exact mem_keysA_removeA he3ne1 u.edges hmem
    have : e3 ∈ keysA E2 := by
      rw [hE2]
      exact mem_keysA_insertA e2 _ E1 this
    exact absurd (hlt e3 this) (lt_irrefl e3)
  refine ⟨_, e3, hcopy, ?_, ?_, ?_, (lookupA_eq_none_iff e3 u.edges).mpr he3Ku,
    he3ne1, he3ne2, ?_, rfl⟩
  · show lookupA e1 (insertA e3 (⟨v3, v2, "π", ""⟩ : Edge) E2) = none
    rw [lookupA_insertA_ne (Ne.symm he3ne1) _ _, hE2,
      lookupA_insertA_ne (Nat.ne_of_lt h12) _ _, hE1]
    exact lookupA_removeA_self e1 u.edges
  · show lookupA e2 (insertA e3 (⟨v3, v2, "π", ""⟩ : Edge) E2) = some ⟨v1, v3, a, k⟩
    rw [lookupA_insertA_ne (Ne.symm he3ne2) _ _, hE2]
    exact lookupA_insertA_self e2 _ E1
  · show lookupA e3 (insertA e3 (⟨v3, v2, "π", ""⟩ : Edge) E2) = some ⟨v3, v2, "π", ""⟩
    exact lookupA_insertA_self e3 _ E2
  · intro j hj1 hj2 hj3
    show lookupA j (insertA e3 (⟨v3, v2, "π", ""⟩ : Edge) E2) = lookupA j u.edges
    rw [lookupA_insertA_ne hj3 _ _, hE2, lookupA_insertA_ne hj2 _ _, hE1]
    exact lookupA_removeA_ne hj1 u.edges

/-- Concrete input for the C7 witness: edge `5 : 1 → 2` labelled `a` with
provenance `lk`; copy it onto the fresh vertex 9 under the fresh edge id 7. -/
def uniC7w : Universe Unit :=
  ⟨[(1, Vertex.empty), (2, Vertex.empty)], [(5, ⟨1, 2, "a", "lk"⟩)]⟩

/-- Witness for the amended C7 at a concrete input. -/
theorem claim_C7_witness :
    ∃ (u2 : Universe Unit) (e3 : Nat),
      uniC7w.copy 5 9 7 = Outcome.ok u2 ∧
      lookupA 5 u2.edges = none ∧
      lookupA 7 u2.edges = some ⟨1, 9, "a", "lk"⟩ ∧
      lookupA e3 u2.edges = some ⟨9, 2, "π", ""⟩ ∧
      lookupA e3 uniC7w.edges = none ∧ e3 ≠ 5 ∧ e3 ≠ 7 ∧
      (∀ j, j ≠ 5 → j ≠ 7 → j ≠ e3 → lookupA j u2.edges = lookupA j uniC7w.edges) ∧
      u2.vertices = uniC7w.vertices :=
  claim_C7 Unit uniC7w 5 1 2 9 7 "a" "lk" (by decide) (by decide) (by decide)

/-! ### Claim C8 -/

/-- Claim C8: `next_id()` returns one more than the maximum identifier over the
union of the vertex and edge key sets (so 1 on the empty universe), and hence
on every universe — in particular after any sequence of adds, binds, reffs and
copies — it differs from every identifier currently in use.  It is a pure
function of the store (the source's `&mut self` receiver performs no
mutation), so two calls without an intervening insertion coincide by
construction. -/
theorem claim_C8 : ∀ (Λ : Type) (u : Universe Λ),
    u.next_id = (keysA u.vertices ++ keysA u.edges).foldl max 0 + 1 ∧
    (u.vertices = [] → u.edges = [] → u.next_id = 1) ∧
    (∀ i, i ∈ keysA u.vertices ++ keysA u.edges → u.next_id ≠ i) := by
  intro Λ u
  refine ⟨next_id_eq u, ?_, ?_⟩
  · intro hv he
    rw [next_id_eq u, hv, he]
    rfl
  · intro i hi
    exact Nat.ne_of_gt (lt_next_id hi)

/-- Concrete input for the C8 witness. -/
def uniC8w : Universe Unit := ⟨[(5, Vertex.empty)], []⟩

/-- Witness for C8 at concrete inputs: the empty universe yields 1, and the
allocator avoids the in-use id 5. -/
theorem claim_C8_witness :
    (Universe.empty : Universe Unit).next_id = 1 ∧ uniC8w.next_id ≠ 5 :=
  ⟨(claim_C8 Unit Universe.empty).2.1 rfl rfl,
   (claim_C8 Unit uniC8w).2.2 5 (by decide)⟩

/-! ### Claim C9 -/

/-- Claim C9: when the locator resolves to a vertex with a stored payload, two
successive `dataize` calls with the same arguments (the second on the universe
returned by the first) both succeed with identical payload bytes — `dataize`
performs no mutation, so the call is idempotent. -/
theorem claim_C9 : ∀ (Λ : Type) (u : Universe Λ) (v : Nat) (loc : String)
    (t : Nat) (vtx : Vertex Λ),
    u.find v loc = Outcome.ok t → lookupA t u.vertices = some vtx →
    vtx.data.is_empty = false →
    u.dataizeM v loc = (Outcome.ok vtx.data, u) ∧
    (u.dataizeM v loc).2.dataizeM v loc = (Outcome.ok vtx.data, u) := by
  intro Λ u v loc t vtx hf hl _
  have hd : u.dataize v loc = Outcome.ok vtx.data := by
    simp [Universe.dataize, hf, hl]
  constructor
  · show (u.dataize v loc, u) = (Outcome.ok vtx.data, u)
    rw [hd]
  · show (u.dataize v loc, u) = (Outcome.ok vtx.data, u)
    rw [hd]

/-- Concrete input for the C9 witness: vertex 4 stores the payload byte `[9]`. -/
def uniC9w : Universe Unit := ⟨[(4, ⟨[9], none⟩)], []⟩

/-- Witness for C9 at a concrete input (`𝜉` resolves to the start vertex). -/
theorem claim_C9_witness :
    uniC9w.dataizeM 4 "𝜉" = (Outcome.ok [9], uniC9w) ∧
    (uniC9w.dataizeM 4 "𝜉").2.dataizeM 4 "𝜉" = (Outcome.ok [9], uniC9w) :=
  claim_C9 Unit uniC9w 4 "𝜉" 4 ⟨[9], none⟩ (by decide) (by decide) (by decide)

/-! ### Claim C10 -/

/-- Claim C10: `dataize` is a pure observer — the universe it returns is the
argument itself (no vertex payload or atom and no edge is changed), and its
result coincides with dataizing the atom-free universe, so no bound atom is
ever invoked or even inspected. -/
theorem claim_C10 : ∀ (Λ : Type) (u : Universe Λ) (v : Nat) (loc : String),
    u.dataizeM v loc = ((eraseAtoms u).dataize v loc, u) := by
  intro Λ u v loc
  show (u.dataize v loc, u) = ((eraseAtoms u).dataize v loc, u)
  have hf : (eraseAtoms u).find v loc = u.find v loc := rfl
  have hmap : ∀ i : Nat, lookupA i (eraseAtoms u).vertices
      = (lookupA i u.vertices).map (fun vx => (⟨vx.data, none⟩ : Vertex Unit)) := by
    intro i
    exact lookupA_map (fun (vx : Vertex Λ) => (⟨vx.data, none⟩ : Vertex Unit)) i u.vertices
  have hdz : (eraseAtoms u).dataize v loc = u.dataize v loc := by
    cases hfind : u.find v loc with
    | ok id =>
      cases hl : lookupA id u.vertices with
      | some vx => simp [Universe.dataize, hf, hfind, hmap, hl]
      | none => simp [Universe.dataize, hf, hfind, hmap, hl]
    | err m => simp [Universe.dataize, hf, hfind]
    | panic m => simp [Universe.dataize, hf, hfind]
  rw [hdz]

end Reo
